import Mathlib

/-!
Verification of `scripts/new_component.py`, a scaffolder that writes a
primary Lean template file and an optional companion test file.

Shallow embedding: the filesystem is an association list from path
strings to entries (a regular file with its text content, or a
directory); paths are modelled as already-normalised POSIX strings
(`pathlib.Path` on POSIX leaves such strings unchanged and `as_posix`
is the identity on them).  Each Python function that touches the
filesystem becomes a pure Lean function from a filesystem state to a
new state together with the list of lines it prints; `main` also
returns the process exit code.
-/

namespace NewComponent

/-- A filesystem entry: a regular file with its text content, or a
directory.  `Path.exists()` in the source is true for both. -/
inductive Entry
  | file (content : String)
  | dir
  deriving DecidableEq, Repr

/-- The filesystem: an association list from path strings to entries.
New entries are consed on the front; `FS.lookup` finds the most recent
binding. -/
abbrev FS := List (String × Entry)

/-- Look up the entry at path `p`, if any. -/
def FS.lookup : FS → String → Option Entry
  | [], _ => none
  | (q, e) :: rest, p => if q = p then some e else FS.lookup rest p

/-- `path.exists()` from the source: true when any entry (file or
directory) is present at the path. -/
def pathExists (fs : FS) (p : String) : Bool :=
  (FS.lookup fs p).isSome

/-- The parent of a path, as character lists: drop the final component
and its separator.  `parentChars "a/b/c.lean".toList = "a/b".toList`;
a path with no separator has parent `[]` (Python's `Path('.')`, which
always exists and needs no creation). -/
def parentChars (l : List Char) : List Char :=
  (((l.reverse).dropWhile (fun c => c != '/')).drop 1).reverse

/-- All strict ancestors of a path (its parent, grandparent, ...),
innermost first, computed with a fuel argument bounded by the path
length; `[]` (the current directory) is included when reached. -/
def ancestorsAux : Nat → List Char → List (List Char)
  | 0, _ => []
  | _ + 1, [] => []
  | n + 1, l => parentChars l :: ancestorsAux n (parentChars l)

/-- The ancestors of a path string, innermost first. -/
def ancestors (p : String) : List String :=
  (ancestorsAux p.toList.length p.toList).map fun l => String.mk l

/-- Create a single directory if nothing exists at that path yet; the
empty path (the current directory) always exists.  This is one step of
`mkdir(parents=True, exist_ok=True)`. -/
def mkdirOne (fs : FS) (d : String) : FS :=
  if d = "" then fs
  else if pathExists fs d then fs
  else (d, Entry.dir) :: fs

/-- `path.parent.mkdir(parents=True, exist_ok=True)` from the source:
create every missing ancestor directory of `p`. -/
def mkdirParents (fs : FS) (p : String) : FS :=
  (ancestors p).foldl mkdirOne fs

/-- The fixed primary template written by `write_lean_file`. -/
def primaryTemplate : String :=
  "/--\n  TODO: add description.\n-/\nimport Mathlib\n\nnamespace Thesis\n\n-- TODO: definitions and theorems.\n\nend Thesis\n"

/-- The test-file content built by `write_test_file` from the module
identifier. -/
def testContent (module : String) : String :=
  "import " ++ module ++ "\n\n-- TODO: add tests for " ++ module ++ ".\n"

/-- `write_lean_file(path)`: skip with a notice if anything exists at
`path`; otherwise create missing parent directories, write the primary
template, and report creation.  Returns the new filesystem and the
printed lines. -/
def write_lean_file (fs : FS) (path : String) : FS × List String :=
  if pathExists fs path then
    (fs, [path ++ " already exists"])
  else
    let fs1 := mkdirParents fs path
    ((path, Entry.file primaryTemplate) :: fs1, ["Created " ++ path])

/-- `write_test_file(path, module)`: same existence-check semantics,
writing the test content instead. -/
def write_test_file (fs : FS) (path : String) (module : String) : FS × List String :=
  if pathExists fs path then
    (fs, [path ++ " already exists"])
  else
    let fs1 := mkdirParents fs path
    ((path, Entry.file (testContent module)) :: fs1, ["Created " ++ path])

/-- Strip the extension of a file name (the final path component),
following `pathlib`: the suffix starts at the last dot provided that
dot is neither the first nor the last character of the name. -/
def stripName (name : List Char) : List Char :=
  match (name.reverse).findIdx? (fun c => c == '.') with
  | some k =>
      if 1 ≤ k ∧ k + 1 < name.length then name.take (name.length - 1 - k)
      else name
  | none => name

/-- `path.with_suffix("")` on character lists: strip the extension of
the final component, leaving the directory part untouched. -/
def withSuffixEmptyChars (l : List Char) : List Char :=
  let name := ((l.reverse).takeWhile (fun c => c != '/')).reverse
  l.take (l.length - name.length) ++ stripName name

/-- `lean_path.with_suffix("").as_posix().replace("/", ".")` on
character lists; `str.replace` with a one-character pattern is exactly
a character map. -/
def moduleIdChars (l : List Char) : List Char :=
  (withSuffixEmptyChars l).map fun c => if c = '/' then '.' else c

/-- The module identifier derived from the primary path. -/
def moduleIdentifier (p : String) : String :=
  String.mk (moduleIdChars p.toList)

/-- Join a list of path components with a separator character; the
spec-side description of a separator-delimited path such as `a/b/File`
(with separator `/`) or a dotted module identifier (with separator
`.`). -/
def joinWith (sep : Char) : List (List Char) → List Char
  | [] => []
  | [c] => c
  | c :: c2 :: cs => c ++ sep :: joinWith sep (c2 :: cs)

/-- The usage line printed when no path argument is given. -/
def usageLine : String :=
  "Usage: new_component.py path/to/File.lean [tests/Path.lean]"

/-- `main()`: `argv` is the full argument vector including the program
name, as in `sys.argv`.  Returns the final filesystem, the printed
lines in order, and the process exit code. -/
def main (argv : List String) (fs : FS) : FS × List String × Nat :=
  match argv with
  | _ :: leanPath :: rest =>
      let r1 := write_lean_file fs leanPath
      match rest with
      | testPath :: _ =>
          let module := moduleIdentifier leanPath
          let r2 := write_test_file r1.1 testPath module
          (r2.1, r1.2 ++ r2.2, 0)
      | [] => (r1.1, r1.2, 0)
  | _ => (fs, [usageLine], 1)

/-! ### Filesystem helper lemmas -/

/-- `mkdirOne` never disturbs a path that is already bound. -/
theorem mkdirOne_lookup (fs : FS) (d x : String) (h : (FS.lookup fs x).isSome) :
    FS.lookup (mkdirOne fs d) x = FS.lookup fs x := by
  by_cases hd : d = ""
  · simp [mkdirOne, hd]
  by_cases he : pathExists fs d
  · simp [mkdirOne, hd, he]
  · have hnone : FS.lookup fs d = none := by
      simpa [pathExists, Option.not_isSome_iff_eq_none] using he
    have hne : d ≠ x := by
      intro heq
      rw [heq] at hnone
      rw [hnone] at h
      simp at h
    simp [mkdirOne, hd, he, FS.lookup, hne]

/-- After `mkdirOne fs d`, a nonempty path `d` is bound. -/
theorem mkdirOne_isSome (fs : FS) (d : String) (hd : d ≠ "") :
    (FS.lookup (mkdirOne fs d) d).isSome := by
  by_cases he : pathExists fs d
  · have he2 : (FS.lookup fs d).isSome = true := by simpa [pathExists] using he
    simp [mkdirOne, hd, pathExists, he2]
  · simp [mkdirOne, hd, he, FS.lookup]

/-- Folding `mkdirOne` over a list of directories never disturbs a
path that is already bound. -/
theorem foldl_mkdirOne_lookup (ds : List String) (fs : FS) (x : String)
    (h : (FS.lookup fs x).isSome) :
    FS.lookup (ds.foldl mkdirOne fs) x = FS.lookup fs x := by
  induction ds generalizing fs with
  | nil => rfl
  | cons d ds ih =>
      have h1 := mkdirOne_lookup fs d x h
      rw [List.foldl_cons, ih (mkdirOne fs d) (by rw [h1]; exact h), h1]

/-- After folding `mkdirOne` over a list, every nonempty path in the
list is bound. -/
theorem foldl_mkdirOne_mem (ds : List String) (fs : FS) (a : String)
    (hne : a ≠ "") (ha : a ∈ ds) :
    (FS.lookup (ds.foldl mkdirOne fs) a).isSome := by
  induction ds generalizing fs with
  | nil => cases ha
  | cons d ds ih =>
      rw [List.foldl_cons]
      rcases List.mem_cons.mp ha with h1 | h1
      · subst h1
        have hs := mkdirOne_isSome fs a hne
        rw [foldl_mkdirOne_lookup ds (mkdirOne fs a) a hs]
        exact hs
      · exact ih (mkdirOne fs d) h1

/-- Folding `mkdirOne` over directories that all exist already (or are
the always-present current directory) changes nothing. -/
theorem foldl_mkdirOne_noop (ds : List String) (fs : FS)
    (h : ∀ d ∈ ds, d = "" ∨ (FS.lookup fs d).isSome) :
    ds.foldl mkdirOne fs = fs := by
  induction ds with
  | nil => rfl
  | cons d ds ih =>
      have hstep : mkdirOne fs d = fs := by
        by_cases hd : d = ""
        · simp [mkdirOne, hd]
        · rcases h d (List.mem_cons_self d ds) with h1 | h1
          · exact absurd h1 hd
          · simp [mkdirOne, hd, pathExists, h1]
      rw [List.foldl_cons, hstep, ih fun d2 hd2 => h d2 (List.mem_cons_of_mem _ hd2)]

/-- `mkdirParents` never disturbs a path that is already bound. -/
theorem mkdirParents_lookup (fs : FS) (p x : String) (h : (FS.lookup fs x).isSome) :
    FS.lookup (mkdirParents fs p) x = FS.lookup fs x :=
  foldl_mkdirOne_lookup (ancestors p) fs x h

/-- Unfolding of `write_lean_file` on a fresh path. -/
theorem write_lean_file_new (fs : FS) (p : String) (h : FS.lookup fs p = none) :
    write_lean_file fs p =
      ((p, Entry.file primaryTemplate) :: mkdirParents fs p, ["Created " ++ p]) := by
  simp [write_lean_file, pathExists, h]

/-- Unfolding of `write_test_file` on a fresh path. -/
theorem write_test_file_new (fs : FS) (p m : String) (h : FS.lookup fs p = none) :
    write_test_file fs p m =
      ((p, Entry.file (testContent m)) :: mkdirParents fs p, ["Created " ++ p]) := by
  simp [write_test_file, pathExists, h]

/-- `write_test_file` preserves every existing binding. -/
theorem write_test_file_lookup (fs : FS) (p m x : String) (e : Entry)
    (h : FS.lookup fs x = some e) :
    FS.lookup (write_test_file fs p m).1 x = some e := by
  by_cases he : pathExists fs p
  · simp [write_test_file, he, h]
  · have hnone : FS.lookup fs p = none := by
      simpa [pathExists, Option.not_isSome_iff_eq_none] using he
    have hne : p ≠ x := by
      intro heq
      rw [heq] at hnone
      rw [hnone] at h
      cases h
    rw [write_test_file_new fs p m hnone]
    simp only [FS.lookup, if_neg hne]
    rw [mkdirParents_lookup fs p x (by simp [h])]
    exact h

/-! ### Path-string helper lemmas -/

/-- `takeWhile` keeps a list all of whose elements satisfy the
predicate. -/
theorem takeWhile_all {α : Type} (p : α → Bool) (l : List α) (h : ∀ a ∈ l, p a) :
    l.takeWhile p = l := by
  induction l with
  | nil => rfl
  | cons x xs ih =>
      simp [List.takeWhile_cons, h x (List.mem_cons_self x xs),
        ih fun a ha => h a (List.mem_cons_of_mem _ ha)]

/-- `takeWhile` never looks past an element that falsifies the
predicate. -/
theorem takeWhile_stop {α : Type} (p : α → Bool) (xs ys : List α) (y : α)
    (hy : p y = false) :
    (xs ++ y :: ys).takeWhile p = xs.takeWhile p := by
  induction xs with
  | nil => simp [List.takeWhile_cons, hy]
  | cons x xs ih => by_cases hx : p x <;> simp [List.takeWhile_cons, hx, ih]

/-- Unfolding of `joinWith` on a cons with a nonempty tail. -/
theorem joinWith_cons (sep : Char) (c : List Char) (l : List (List Char)) (h : l ≠ []) :
    joinWith sep (c :: l) = c ++ sep :: joinWith sep l := by
  cases l with
  | nil => cases h rfl
  | cons c2 cs => rfl

/-- The final component of a `/`-joined path is recovered by taking
non-`/` characters from the reversed path. -/
theorem takeWhile_reverse_joinWith (pre : List (List Char)) (lastc : List Char)
    (hpre : ∀ c ∈ pre, '/' ∉ c) (hlast : '/' ∉ lastc) :
    ((joinWith '/' (pre ++ [lastc])).reverse).takeWhile (fun c => c != '/') =
      lastc.reverse := by
  induction pre with
  | nil =>
      simp only [List.nil_append, joinWith]
      exact takeWhile_all _ _ fun a ha => by
        have hm : a ∈ lastc := List.mem_reverse.mp ha
        have hne : a ≠ '/' := fun he => hlast (he ▸ hm)
        simpa using hne
  | cons c pre2 ih =>
      rw [List.cons_append, joinWith_cons '/' c (pre2 ++ [lastc]) (by simp)]
      rw [List.reverse_append, List.reverse_cons, List.append_assoc,
        List.singleton_append]
      rw [takeWhile_stop _ _ _ '/' (by simp)]
      exact ih fun c2 hc2 => hpre c2 (List.mem_cons_of_mem _ hc2)

/-- Mapping a function that fixes every element of a list is the
identity on it. -/
theorem map_fix {α : Type} (f : α → α) (l : List α) (h : ∀ a ∈ l, f a = a) :
    l.map f = l := by
  induction l with
  | nil => rfl
  | cons x xs ih =>
      simp [h x (List.mem_cons_self x xs), ih fun a ha => h a (List.mem_cons_of_mem _ ha)]

/-- Replacing `/` by `.` in a `/`-joined path whose components avoid
`/` yields the `.`-joined path. -/
theorem map_slash_joinWith (comps : List (List Char))
    (hsep : ∀ c ∈ comps, '/' ∉ c) :
    (joinWith '/' comps).map (fun c => if c = '/' then '.' else c) =
      joinWith '.' comps := by
  induction comps with
  | nil => rfl
  | cons c cs ih =>
      cases cs with
      | nil =>
          simp only [joinWith]
          exact map_fix _ c fun a ha => by
            have hne : a ≠ '/' := fun he => hsep c (List.mem_cons_self c []) (he ▸ ha)
            simp [hne]
      | cons c2 cs2 =>
          rw [joinWith_cons '/' c (c2 :: cs2) (by simp),
            joinWith_cons '.' c (c2 :: cs2) (by simp)]
          rw [List.map_append, List.map_cons]
          rw [map_fix _ c fun a ha => by
            have hne : a ≠ '/' := fun he => hsep c (List.mem_cons_self c _) (he ▸ ha)
            simp [hne]]
          rw [ih fun c3 hc3 => hsep c3 (List.mem_cons_of_mem _ hc3)]
          simp

/-- `with_suffix("")` is the identity on a path whose final component
contains no dot. -/
theorem withSuffixEmptyChars_of_noDot (l : List Char)
    (h : ∀ a ∈ (l.reverse).takeWhile (fun c => c != '/'), a ≠ '.') :
    withSuffixEmptyChars l = l := by
  have hstrip : stripName (((l.reverse).takeWhile (fun c => c != '/')).reverse)
      = ((l.reverse).takeWhile (fun c => c != '/')).reverse := by
    have hfind : ((l.reverse).takeWhile (fun c => c != '/')).findIdx?
        (fun c => c == '.') = none := by
      rw [List.findIdx?_eq_none_iff]
      intro x hx
      simpa using h x hx
    simp [stripName, hfind]
  simp only [withSuffixEmptyChars]
  rw [hstrip]
  have hd : ((l.reverse).dropWhile (fun c => c != '/')).reverse ++
      ((l.reverse).takeWhile (fun c => c != '/')).reverse = l := by
    rw [← List.reverse_append, List.takeWhile_append_dropWhile, List.reverse_reverse]
  set b := ((l.reverse).takeWhile (fun c => c != '/')).reverse with hb
  set a := ((l.reverse).dropWhile (fun c => c != '/')).reverse with ha
  rw [← hd, List.length_append, Nat.add_sub_cancel, List.take_left]

/-! ### Claims -/

/-- C1: on a path with no existing entry, `write_lean_file` creates a
file holding exactly the fixed primary template and prints exactly the
line `Created <path>`. -/
theorem C1_createPrimary_fresh (fs : FS) (p : String)
    (h : FS.lookup fs p = none) :
    FS.lookup (write_lean_file fs p).1 p = some (Entry.file primaryTemplate) ∧
    (write_lean_file fs p).2 = ["Created " ++ p] := by
  rw [write_lean_file_new fs p h]
  simp [FS.lookup]

/-- C1 witness at a concrete fresh path. -/
theorem C1_createPrimary_fresh_witness :
    FS.lookup (write_lean_file [] "a/b/Foo.lean").1 "a/b/Foo.lean" =
        some (Entry.file primaryTemplate) ∧
    (write_lean_file [] "a/b/Foo.lean").2 = ["Created " ++ "a/b/Foo.lean"] :=
  C1_createPrimary_fresh [] "a/b/Foo.lean" rfl

/-- C2: when an entry already exists at the target path, both writers
leave the filesystem (hence the existing content, whatever it is)
unchanged and print `<path> already exists`. -/
theorem C2_neverOverwrite (fs : FS) (p m : String) (e : Entry)
    (h : FS.lookup fs p = some e) :
    write_lean_file fs p = (fs, [p ++ " already exists"]) ∧
    write_test_file fs p m = (fs, [p ++ " already exists"]) := by
  constructor <;> simp [write_lean_file, write_test_file, pathExists, h]

/-- C2 witness: an existing file whose content differs from the
template is skipped by both writers. -/
theorem C2_neverOverwrite_witness :
    write_lean_file [("a/b/Foo.lean", Entry.file "custom content")] "a/b/Foo.lean" =
        ([("a/b/Foo.lean", Entry.file "custom content")],
          ["a/b/Foo.lean" ++ " already exists"]) ∧
    write_test_file [("a/b/Foo.lean", Entry.file "custom content")] "a/b/Foo.lean" "a.b.Foo" =
        ([("a/b/Foo.lean", Entry.file "custom content")],
          ["a/b/Foo.lean" ++ " already exists"]) :=
  C2_neverOverwrite [("a/b/Foo.lean", Entry.file "custom content")] "a/b/Foo.lean"
    "a.b.Foo" (Entry.file "custom content") rfl

/-- C3: the module identifier strips the extension and replaces every
path separator with `.`: on any `/`-delimited path whose components
avoid `/` and whose final component has no dot, it yields the
`.`-joined components; in particular
`moduleIdentifier "a/b/File" = "a.b.File"`. -/
theorem C3_moduleIdentifier_separated (pre : List (List Char)) (lastc : List Char)
    (hpre : ∀ c ∈ pre, '/' ∉ c) (hlast : '/' ∉ lastc) (hdot : '.' ∉ lastc) :
    moduleIdChars (joinWith '/' (pre ++ [lastc])) = joinWith '.' (pre ++ [lastc]) ∧
    moduleIdentifier "a/b/File" = "a.b.File" := by
  constructor
  · simp only [moduleIdChars]
    rw [withSuffixEmptyChars_of_noDot]
    · exact map_slash_joinWith (pre ++ [lastc]) fun c hc => by
        rcases List.mem_append.mp hc with h1 | h1
        · exact hpre c h1
        · rw [List.mem_singleton.mp h1]
          exact hlast
    · rw [takeWhile_reverse_joinWith pre lastc hpre hlast]
      intro a ha
      have hm : a ∈ lastc := List.mem_reverse.mp ha
      exact fun he => hdot (he ▸ hm)
  · rfl

/-- C3 witness at the concrete path `a/b/File`. -/
theorem C3_moduleIdentifier_separated_witness :
    moduleIdChars (joinWith '/' ([['a'], ['b']] ++ [['F', 'i', 'l', 'e']])) =
      joinWith '.' ([['a'], ['b']] ++ [['F', 'i', 'l', 'e']]) ∧
    moduleIdentifier "a/b/File" = "a.b.File" :=
  C3_moduleIdentifier_separated [['a'], ['b']] ['F', 'i', 'l', 'e']
    (by decide) (by decide) (by decide)

/-- C4: with no path argument the program prints the usage line,
exits with code 1, and leaves the filesystem unchanged. -/
theorem C4_usage_noArgs (prog : String) (fs : FS) :
    main [prog] fs = (fs, [usageLine], 1) := rfl

/-- C5: a performed test-file write stores exactly the import line for
the module identifier, a blank line, and the placeholder comment
naming it; for primary path `a/b/Foo.lean` the content imports
`a.b.Foo`. -/
theorem C5_testContent_fresh (fs : FS) (p m : String)
    (h : FS.lookup fs p = none) :
    FS.lookup (write_test_file fs p m).1 p = some (Entry.file (testContent m)) ∧
    (write_test_file fs p m).2 = ["Created " ++ p] ∧
    testContent (moduleIdentifier "a/b/Foo.lean") =
      "import a.b.Foo\n\n-- TODO: add tests for a.b.Foo.\n" := by
  rw [write_test_file_new fs p m h]
  exact ⟨by simp [FS.lookup], rfl, rfl⟩

/-- C5 witness at the concrete scenario-2 paths. -/
theorem C5_testContent_fresh_witness :
    FS.lookup (write_test_file [] "tests/a/b/Foo.lean" (moduleIdentifier "a/b/Foo.lean")).1
        "tests/a/b/Foo.lean" =
      some (Entry.file (testContent (moduleIdentifier "a/b/Foo.lean"))) ∧
    (write_test_file [] "tests/a/b/Foo.lean" (moduleIdentifier "a/b/Foo.lean")).2 =
      ["Created " ++ "tests/a/b/Foo.lean"] ∧
    testContent (moduleIdentifier "a/b/Foo.lean") =
      "import a.b.Foo\n\n-- TODO: add tests for a.b.Foo.\n" :=
  C5_testContent_fresh [] "tests/a/b/Foo.lean" (moduleIdentifier "a/b/Foo.lean") rfl

/-- C6: with at least one argument the primary writer runs on the
first; the test writer runs exactly when a second argument is present,
with the module identifier of the first; and the primary write is not
undone by whatever the test write does. -/
theorem C6_orchestration (prog p1 p2 : String) (rest : List String) (fs : FS)
    (h : FS.lookup fs p1 = none) :
    main (prog :: p1 :: p2 :: rest) fs =
      ((write_test_file (write_lean_file fs p1).1 p2 (moduleIdentifier p1)).1,
        (write_lean_file fs p1).2 ++
          (write_test_file (write_lean_file fs p1).1 p2 (moduleIdentifier p1)).2,
        0) ∧
    main [prog, p1] fs = ((write_lean_file fs p1).1, (write_lean_file fs p1).2, 0) ∧
    FS.lookup (main (prog :: p1 :: p2 :: rest) fs).1 p1 =
      some (Entry.file primaryTemplate) := by
  refine ⟨rfl, rfl, ?_⟩
  have hmain : (main (prog :: p1 :: p2 :: rest) fs).1 =
      (write_test_file (write_lean_file fs p1).1 p2 (moduleIdentifier p1)).1 := rfl
  rw [hmain]
  apply write_test_file_lookup
  rw [write_lean_file_new fs p1 h]
  simp [FS.lookup]

/-- C6 witness: even when the test path collides with the just-written
primary path (so the test write is skipped), the primary file
survives. -/
theorem C6_orchestration_witness :
    FS.lookup (main ["prog", "a/b/Foo.lean", "a/b/Foo.lean"] []).1 "a/b/Foo.lean" =
      some (Entry.file primaryTemplate) :=
  (C6_orchestration "prog" "a/b/Foo.lean" "a/b/Foo.lean" [] [] rfl).2.2

/-- C7: with at least one path argument the exit code is 0, whether
each file was created or skipped. -/
theorem C7_exitZero (prog p1 : String) (rest : List String) (fs : FS) :
    (main (prog :: p1 :: rest) fs).2.2 = 0 := by
  cases rest <;> rfl

/-- C8: on a fresh target path both writers leave every (nonempty)
ancestor directory present, and when all ancestors already exist the
primary write succeeds adding only the new file. -/
theorem C8_parentDirs (fs : FS) (p m : String)
    (h : FS.lookup fs p = none) :
    (∀ a ∈ ancestors p, a ≠ "" → (FS.lookup (write_lean_file fs p).1 a).isSome) ∧
    (∀ a ∈ ancestors p, a ≠ "" → (FS.lookup (write_test_file fs p m).1 a).isSome) ∧
    ((∀ a ∈ ancestors p, a = "" ∨ (FS.lookup fs a).isSome) →
      (write_lean_file fs p).1 = (p, Entry.file primaryTemplate) :: fs) := by
  refine ⟨?_, ?_, ?_⟩
  · intro a ha hne
    rw [write_lean_file_new fs p h]
    by_cases hp : p = a
    · simp [FS.lookup, hp]
    · simp only [FS.lookup, if_neg hp]
      exact foldl_mkdirOne_mem (ancestors p) fs a hne ha
  · intro a ha hne
    rw [write_test_file_new fs p m h]
    by_cases hp : p = a
    · simp [FS.lookup, hp]
    · simp only [FS.lookup, if_neg hp]
      exact foldl_mkdirOne_mem (ancestors p) fs a hne ha
  · intro hall
    rw [write_lean_file_new fs p h]
    rw [show mkdirParents fs p = fs from foldl_mkdirOne_noop (ancestors p) fs hall]

/-- C8 witness: a missing intermediate directory is created, and with
all parents present only the file itself is added. -/
theorem C8_parentDirs_witness :
    (FS.lookup (write_lean_file [("a", Entry.dir)] "a/b/c.lean").1 "a/b").isSome = true ∧
    (write_lean_file [("a", Entry.dir)] "a/c.lean").1 =
      ("a/c.lean", Entry.file primaryTemplate) :: [("a", Entry.dir)] :=
  ⟨(C8_parentDirs [("a", Entry.dir)] "a/b/c.lean" "m" rfl).1 "a/b" (by decide) (by decide),
    (C8_parentDirs [("a", Entry.dir)] "a/c.lean" "m" rfl).2.2 (by decide)⟩

/-- C9: the pre-existence check accepts any entry, so a directory at
the target path makes both writers skip with the `already exists`
notice. -/
theorem C9_dirCollision (fs : FS) (p m : String)
    (h : FS.lookup fs p = some Entry.dir) :
    write_lean_file fs p = (fs, [p ++ " already exists"]) ∧
    write_test_file fs p m = (fs, [p ++ " already exists"]) := by
  constructor <;> simp [write_lean_file, write_test_file, pathExists, h]

/-- C9 witness: a directory at the target path is skipped. -/
theorem C9_dirCollision_witness :
    write_lean_file [("pkg", Entry.dir)] "pkg" =
      ([("pkg", Entry.dir)], ["pkg" ++ " already exists"]) ∧
    write_test_file [("pkg", Entry.dir)] "pkg" "m" =
      ([("pkg", Entry.dir)], ["pkg" ++ " already exists"]) :=
  C9_dirCollision [("pkg", Entry.dir)] "pkg" "m" rfl

/-- C10: only the final extension is stripped, dots inside components
survive, and distinct paths can share one module identifier. -/
theorem C10_extensionOnlyFinal :
    moduleIdentifier "a/Foo.tar.gz" = "a.Foo.tar" ∧
    moduleIdentifier "a.b/File.lean" = "a.b.File" ∧
    moduleIdentifier "a/b/File.lean" = "a.b.File" ∧
    ("a.b/File.lean" : String) ≠ "a/b/File.lean" :=
  ⟨rfl, rfl, rfl, by decide⟩

end NewComponent
